import Mathlib

/-!
Shallow embedding of `src/kmcuda.cc` (the k-means CUDA orchestration layer):
argument validation, device-pool setup, the three centroid-initialization
strategies, yinyang buffer sizing, and result collection.

Machine floating-point values that the host code only compares and adds are
modelled as exact rationals; a possibly-NaN double is `CFloat := Option ℚ`
with `none` standing for NaN (every ordered comparison against NaN is false,
as in IEEE semantics used by the C code).
-/

namespace Kmcuda

/-- Result codes of the public API (`KMCUDAResult` in the C source). -/
inductive KMCUDAResult where
  | success
  | invalidArguments
  | noSuchDevice
  | memoryAllocationError
  | runtimeError
  | memoryCopyError
  deriving DecidableEq, Repr

/-- The sentinel `UINT32_MAX` reserved as invalid for `clusters_size`. -/
def UINT32_MAX : ℕ := 4294967295

/-- A C `double` that may be NaN: `none` is NaN, `some q` a finite value. -/
def CFloat : Type := Option ℚ

/-- NaN test, i.e. the C idiom `x != x`. -/
def cfIsNaN (x : CFloat) : Bool :=
  match x with
  | none => true
  | some _ => false

/-- Comparison `s < t` where `t` may be NaN (false whenever `t` is NaN). -/
def qltCF (s : ℚ) (t : CFloat) : Bool :=
  match t with
  | none => false
  | some q => decide (s < q)

/-- Comparison `s >= t` where `t` may be NaN (false whenever `t` is NaN). -/
def qgeCF (s : ℚ) (t : CFloat) : Bool :=
  match t with
  | none => false
  | some q => decide (q ≤ s)

/-- Multiplication `c * t` propagating NaN, as for the C `choice * dist_sum`. -/
def cfMul (c : ℚ) (t : CFloat) : CFloat :=
  match t with
  | none => none
  | some q => some (c * q)

/-- Embedding of `check_args` (src/kmcuda.cc lines 19-56).  Pointers are
modelled by their nullness; `devices` is the value produced by
`cudaGetDeviceCount` and `cuda_arch` the compile-time `CUDA_ARCH` macro.
The C check `device < 0` on a `uint32_t` is vacuous and is dropped. -/
def check_args (tolerance yinyang_t : ℚ) (samples_size : ℕ) (features_size : ℕ)
    (clusters_size : ℕ) (device : ℕ) (devices : ℕ) (cuda_arch : ℕ) (fp16x2 : Bool)
    (samples_null centroids_null assignments_null : Bool) : KMCUDAResult :=
  if clusters_size < 2 ∨ clusters_size = UINT32_MAX then .invalidArguments
  else if features_size = 0 then .invalidArguments
  else if samples_size < clusters_size then .invalidArguments
  else if 2 ^ devices < device then .noSuchDevice
  else if samples_null ∨ centroids_null ∨ assignments_null then .invalidArguments
  else if tolerance < 0 ∨ 1 < tolerance then .invalidArguments
  else if yinyang_t < 0 ∨ 1/2 < yinyang_t then .invalidArguments
  else if cuda_arch < 60 ∧ fp16x2 then .invalidArguments
  else .success

/-- C2 counterexample: a null `samples` pointer together with an oversized
device mask makes `check_args` return `noSuchDevice`, not the
`invalidArguments` the claim demands, because the device-mask check precedes
the pointer/tolerance/yinyang checks. -/
theorem C2_check_args_cex :
    check_args 0 0 2 1 2 5 1 60 false true false false = KMCUDAResult.noSuchDevice ∧
    KMCUDAResult.noSuchDevice ≠ KMCUDAResult.invalidArguments := by
  decide

/-- C2 (amended): `check_args` returns `invalidArguments` whenever
`clusters_size < 2`, `clusters_size = UINT32_MAX`, `features_size = 0` or
`samples_size < clusters_size`; provided the device-mask check does not fire
(`device ≤ 2 ^ devices`), it also returns `invalidArguments` whenever a
pointer is null, `tolerance ∉ [0,1]` or `yinyang_t ∉ [0,1/2]`; and it
returns `success` when none of these conditions nor the device-mask or fp16
conditions hold. -/
theorem C2_check_args_amended (tolerance yinyang_t : ℚ)
    (samples_size features_size clusters_size device devices cuda_arch : ℕ)
    (fp16x2 samples_null centroids_null assignments_null : Bool) :
    ((clusters_size < 2 ∨ clusters_size = UINT32_MAX ∨ features_size = 0 ∨
        samples_size < clusters_size) →
      check_args tolerance yinyang_t samples_size features_size clusters_size
        device devices cuda_arch fp16x2 samples_null centroids_null
        assignments_null = KMCUDAResult.invalidArguments)
    ∧ (device ≤ 2 ^ devices →
       (samples_null = true ∨ centroids_null = true ∨ assignments_null = true ∨
        tolerance < 0 ∨ 1 < tolerance ∨ yinyang_t < 0 ∨ 1/2 < yinyang_t) →
      check_args tolerance yinyang_t samples_size features_size clusters_size
        device devices cuda_arch fp16x2 samples_null centroids_null
        assignments_null = KMCUDAResult.invalidArguments)
    ∧ (2 ≤ clusters_size → clusters_size ≠ UINT32_MAX → features_size ≠ 0 →
       clusters_size ≤ samples_size → device ≤ 2 ^ devices →
       samples_null = false → centroids_null = false → assignments_null = false →
       0 ≤ tolerance → tolerance ≤ 1 → 0 ≤ yinyang_t → yinyang_t ≤ 1/2 →
       ¬(cuda_arch < 60 ∧ fp16x2 = true) →
      check_args tolerance yinyang_t samples_size features_size clusters_size
        device devices cuda_arch fp16x2 samples_null centroids_null
        assignments_null = KMCUDAResult.success) := by
  refine ⟨?_, ?_, ?_⟩
  · intro h
    unfold check_args
    split_ifs <;> tauto
  · intro hdev h
    unfold check_args
    split_ifs <;> first | rfl | omega | tauto
  · intro h1 h2 h3 h4 h5 h6 h7 h8 h9 h10 h11 h12 h13
    unfold check_args
    split_ifs with hA hB hC hD hE hF
    · exact absurd hA (by omega)
    · exact absurd hB (by omega)
    · exact absurd hC (by omega)
    · exact absurd hD (by simp [h6, h7, h8])
    · rcases hE with h | h <;> linarith
    · rcases hF with h | h <;> linarith
    · rfl

/-- C2 witness: the amended theorem applied at a concrete well-formed
argument tuple yields `success`. -/
theorem C2_check_args_amended_witness :
    check_args 0 0 2 1 2 1 1 60 false false false false = KMCUDAResult.success :=
  (C2_check_args_amended 0 0 2 1 2 1 1 60 false false false false).2.2
    (by omega) (by decide) (by omega) (by omega) (by omega) rfl rfl rfl
    (by norm_num) (by norm_num) (by norm_num) (by norm_num) (by simp)

/-- Cumulative prefix sum of the first `k` entries of the host distance
vector, as accumulated by the `omp simd` loop (src/kmcuda.cc lines 230-234). -/
def prefixSum (d : List ℚ) (k : ℕ) : ℚ :=
  (d.take k).sum

/-- Forward cumulative scan, embedding the C loop
`for (j = j0; j < samples_size && dist_sum2 < choice_sum; j++)
   dist_sum2 += host_dists[j];`
(src/kmcuda.cc lines 226-228 and 236-238).  The fuel argument only bounds
the recursion; `n` iterations always suffice because `j` increases towards
`n`. -/
def scanFwd (d : List ℚ) (n : ℕ) (cs : CFloat) : ℕ → ℕ → ℚ → ℕ
  | 0, j, _ => j
  | fuel + 1, j, s =>
      if j < n ∧ qltCF s cs then scanFwd d n cs fuel (j + 1) (s + d.getD j 0)
      else j

/-- Backward walk, embedding the C loop
`for (j = choice_approx; j > 1 && dist_sum2 >= choice_sum; j--)
   dist_sum2 -= host_dists[j];`
(src/kmcuda.cc lines 240-242); the trailing `j++` of line 243 is applied by
the caller. -/
def scanBwd (d : List ℚ) (cs : CFloat) : ℕ → ℚ → ℕ
  | 0, _ => 0
  | j + 1, s =>
      if 1 < j + 1 ∧ qgeCF s cs then scanBwd d cs j (s - d.getD (j + 1) 0)
      else j + 1

/-- The hybrid cumulative-weight search of `kmeans_init_centroids`
(src/kmcuda.cc lines 220-245): `choice_approx = uint32(choice * n)` (the
C cast of a non-negative double truncates, i.e. takes the floor); if it is
below 100, scan linearly from index 0; otherwise take the partial prefix sum
up to `choice_approx` and either continue forward or walk backward (the
`j++` of line 243 is the trailing `+ 1`). -/
def hybrid_search (d : List ℚ) (n : ℕ) (choice : ℚ) (dist_sum : CFloat) : ℕ :=
  if (⌊choice * n⌋).toNat < 100 then
    scanFwd d n (cfMul choice dist_sum) n 0 0
  else if qltCF (prefixSum d (⌊choice * n⌋).toNat) (cfMul choice dist_sum) then
    scanFwd d n (cfMul choice dist_sum) n (⌊choice * n⌋).toNat
      (prefixSum d (⌊choice * n⌋).toNat)
  else
    scanBwd d (cfMul choice dist_sum) (⌊choice * n⌋).toNat
      (prefixSum d (⌊choice * n⌋).toNat) + 1

/-- Written from the spec: the naive full prefix-sum scan.  The accumulator
`s` is the prefix sum of the first `j` entries; the scan stops at the
smallest `j` whose prefix sum reaches the target. -/
def naive_go (target : ℚ) : ℕ → ℚ → List ℚ → ℕ
  | j, _, [] => j
  | j, s, x :: rest => if target ≤ s then j else naive_go target (j + 1) (s + x) rest

/-- Written from the spec: the smallest sample index `j` whose prefix sum of
`host_dists` reaches the target cumulative weight (`d.length` if the target
is never reached). -/
def naive_scan (d : List ℚ) (target : ℚ) : ℕ :=
  naive_go target 0 0 d

/-- One continuing iteration of the backward walk. -/
theorem scanBwd_step (d : List ℚ) (cs : CFloat) (j : ℕ) (s : ℚ)
    (h : 1 < j + 1 ∧ qgeCF s cs = true) :
    scanBwd d cs (j + 1) s = scanBwd d cs j (s - d.getD (j + 1) 0) := by
  simp only [scanBwd]
  rw [if_pos h]

/-- The exit of the backward walk. -/
theorem scanBwd_stop (d : List ℚ) (cs : CFloat) (j : ℕ) (s : ℚ)
    (h : ¬(1 < j + 1 ∧ qgeCF s cs = true)) :
    scanBwd d cs (j + 1) s = j + 1 := by
  simp only [scanBwd]
  rw [if_neg h]

/-- The naive scan skips a block of zero weights without moving the
accumulated prefix sum, as long as the target is not yet reached. -/
theorem naive_go_skip_zeros (target : ℚ) (s : ℚ) (h : ¬ target ≤ s) (k : ℕ)
    (rest : List ℚ) :
    ∀ j, naive_go target j s (List.replicate k 0 ++ rest) =
      naive_go target (j + k) s rest := by
  induction k with
  | zero => intro j; simp
  | succ m ih =>
      intro j
      rw [List.replicate_succ, List.cons_append]
      simp only [naive_go]
      rw [if_neg h, add_zero, ih]
      ring_nf

/-- Distance vector exhibiting the backward-walk off-by-one: 95 zero
weights, then five unit weights (samples 95..99), then one zero weight. -/
def cex_dists : List ℚ :=
  List.replicate 95 0 ++ (List.replicate 5 1 ++ [0])

/-- The partial prefix sum accumulated up to `choice_approx = 100` on the
counterexample distances. -/
theorem cex_prefixSum : prefixSum cex_dists 100 = 5 := by
  unfold prefixSum cex_dists
  rw [List.take_append_eq_append_take, List.take_of_length_le (by simp),
      List.take_append_eq_append_take, List.take_replicate]
  simp [List.sum_replicate]
  norm_num

/-- Entry 100 of the counterexample distances. -/
theorem cex_getD_100 : cex_dists.getD 100 0 = 0 := by
  unfold cex_dists
  rw [List.getD_eq_getElem?_getD, List.getElem?_append_right (by simp),
      List.getElem?_append_right (by simp)]
  simp

/-- Entry 99 of the counterexample distances. -/
theorem cex_getD_99 : cex_dists.getD 99 0 = 1 := by
  unfold cex_dists
  rw [List.getD_eq_getElem?_getD, List.getElem?_append_right (by simp),
      List.getElem?_append_left (by simp)]
  simp [List.getElem?_replicate]

/-- C1: concrete refutation of the hybrid/naive equivalence.  With 101
samples, distances `[0×95, 1×5, 0]` (sum 5) and draw `choice = 100/101`,
`choice_approx = 100 ≥ 100` and the partial prefix sum (5) already reaches
the target `500/101 ≈ 4.95`, so the backward walk runs; it subtracts
`host_dists[j]` starting at `j = choice_approx = 100` although that entry is
not part of the accumulated prefix, and stops one position early: the code
returns `j = 99` (prefix sum `4 < 500/101`) whereas the naive scan returns
`j = 100`, the smallest index whose prefix sum (5) reaches the target. -/
theorem C1_hybrid_vs_naive_cex :
    hybrid_search cex_dists 101 (100/101) (some 5) = 99 ∧
    naive_scan cex_dists ((100/101) * 5) = 100 := by
  have hA : (⌊(100:ℚ)/101 * ((101:ℕ):ℚ)⌋).toNat = 100 := by norm_num; rfl
  have hMul : cfMul ((100:ℚ)/101) (some 5) = some (500/101) := by
    simp only [cfMul]
    norm_num
  constructor
  · unfold hybrid_search
    rw [hA, hMul, cex_prefixSum]
    rw [if_neg (by norm_num)]
    rw [if_neg (by simp only [qltCF]; norm_num)]
    have s1 : scanBwd cex_dists (some (500/101)) (99 + 1) 5 =
        scanBwd cex_dists (some (500/101)) 99 (5 - cex_dists.getD 100 0) :=
      scanBwd_step _ _ 99 5 ⟨by norm_num, by simp only [qgeCF]; norm_num⟩
    have s2 : scanBwd cex_dists (some (500/101)) (98 + 1) 5 =
        scanBwd cex_dists (some (500/101)) 98 (5 - cex_dists.getD 99 0) :=
      scanBwd_step _ _ 98 5 ⟨by norm_num, by simp only [qgeCF]; norm_num⟩
    have s3 : scanBwd cex_dists (some (500/101)) (97 + 1) 4 = 97 + 1 := by
      apply scanBwd_stop
      simp only [qgeCF]
      norm_num
    rw [cex_getD_100] at s1
    rw [cex_getD_99] at s2
    norm_num at s1 s2
    rw [show (100:ℕ) = 99 + 1 from rfl, s1, show (99:ℕ) = 98 + 1 from rfl, s2,
        show (4:ℚ) = 5 - 1 by norm_num] at *
    rw [show (98:ℕ) = 97 + 1 from rfl] at *
    rw [s3]
  · unfold naive_scan cex_dists
    rw [naive_go_skip_zeros _ _ (by norm_num) _ _ 0]
    simp only [List.replicate, List.cons_append, List.nil_append, naive_go]
    rw [if_neg (by norm_num), if_neg (by norm_num), if_neg (by norm_num),
        if_neg (by norm_num), if_neg (by norm_num), if_pos (by norm_num)]

/-- The yinyang group count `yy_groups_size = uint32(yinyang_t * clusters_size)`
(src/kmcuda.cc line 273); the C cast of a non-negative double truncates. -/
def yy_groups_size (yinyang_t : ℚ) (clusters_size : ℕ) : ℕ :=
  (⌊yinyang_t * clusters_size⌋).toNat

/-- Element counts of the yinyang auxiliary buffers allocated by
`kmeans_cuda`, and whether the group-centroid buffer aliases the passed
buffer. -/
structure YYPlan where
  assignments_yy_len : ℕ
  bounds_yy_len : ℕ
  drifts_yy_len : ℕ
  passed_yy_len : ℕ
  centroids_yy_aliased : Bool
  centroids_yy_len : ℕ
  deriving DecidableEq, Repr

/-- Embedding of the yinyang buffer sizing of `kmeans_cuda`
(src/kmcuda.cc lines 324-345): when `yy_groups_size >= 1`, the bounds buffer
gets `max_length * (yy_groups_size + 1)` elements, the drift buffer
`centroids_size + clusters_size` elements; `max_length` is then raised to
`max(max_length, clusters_size + yy_groups_size)` and used as the passed
buffer length, and the group-centroid buffer aliases the passed buffer
exactly when `yy_groups_size * features_size` fits in it.  `max_length0` is
the result of the external `max_distribute_length`. -/
def yy_plan (features_size clusters_size : ℕ) (yinyang_t : ℚ)
    (max_length0 : ℕ) : Option YYPlan :=
  let yy := yy_groups_size yinyang_t clusters_size
  if 1 ≤ yy then
    let centroids_size := clusters_size * features_size
    let yyb_size := max_length0 * (yy + 1)
    let max_length := max max_length0 (clusters_size + yy)
    let yyc_size := yy * features_size
    some { assignments_yy_len := clusters_size
         , bounds_yy_len := yyb_size
         , drifts_yy_len := centroids_size + clusters_size
         , passed_yy_len := max_length
         , centroids_yy_aliased := yyc_size ≤ max_length
         , centroids_yy_len := yyc_size }
  else none

/-- C7: with `yy_groups_size = floor(yinyang_t * clusters_size) ≥ 1`, the
bounds buffer holds `max_length * (yy_groups_size + 1)` elements, the drift
buffer `clusters_size * features_size + clusters_size` elements, the passed
buffer `max(max_length, clusters_size + yy_groups_size)` elements, and the
group-centroid buffer aliases the passed buffer iff
`yy_groups_size * features_size` is at most the passed buffer's capacity. -/
theorem C7_yy_buffer_sizing (features_size clusters_size : ℕ) (yinyang_t : ℚ)
    (max_length0 : ℕ) (hyy : 1 ≤ yy_groups_size yinyang_t clusters_size) :
    ∃ p : YYPlan,
      yy_plan features_size clusters_size yinyang_t max_length0 = some p ∧
      p.bounds_yy_len =
        max_length0 * (yy_groups_size yinyang_t clusters_size + 1) ∧
      p.drifts_yy_len = clusters_size * features_size + clusters_size ∧
      p.passed_yy_len =
        max max_length0 (clusters_size + yy_groups_size yinyang_t clusters_size) ∧
      (p.centroids_yy_aliased = true ↔
        yy_groups_size yinyang_t clusters_size * features_size ≤
          p.passed_yy_len) := by
  simp only [yy_plan]
  rw [if_pos hyy]
  exact ⟨_, rfl, rfl, rfl, rfl, by simp⟩

/-- C7 witness: concrete sizing run with `yinyang_t = 1/10`,
`clusters_size = 40`, `features_size = 8`, `max_length0 = 1000`. -/
theorem C7_yy_buffer_sizing_witness :
    ∃ p : YYPlan,
      yy_plan 8 40 (1/10) 1000 = some p ∧
      p.bounds_yy_len = 1000 * (yy_groups_size (1/10) 40 + 1) ∧
      p.drifts_yy_len = 40 * 8 + 40 ∧
      p.passed_yy_len = max 1000 (40 + yy_groups_size (1/10) 40) ∧
      (p.centroids_yy_aliased = true ↔
        yy_groups_size (1/10) 40 * 8 ≤ p.passed_yy_len) :=
  C7_yy_buffer_sizing 8 40 (1/10) 1000
    (by unfold yy_groups_size; norm_num)

/-- Embedding of `normalize_cuda` (src/kmcuda.cc lines 396-402): the body is
empty apart from a debug print; the output buffer is returned untouched and
the result is always `success`. -/
def normalize_cuda (samples : List ℚ) (features_size samples_size : ℕ)
    (device : ℕ) (device_ptrs : ℤ) (verbosity : ℤ) (output : List ℚ) :
    KMCUDAResult × List ℚ :=
  (KMCUDAResult.success, output)

/-- C10: `normalize_cuda` returns `success` for every input and leaves the
output buffer exactly as the caller supplied it; it reads nothing from
`samples`. -/
theorem C10_normalize_cuda_noop (samples : List ℚ)
    (features_size samples_size : ℕ) (device : ℕ) (device_ptrs : ℤ)
    (verbosity : ℤ) (output : List ℚ) :
    normalize_cuda samples features_size samples_size device device_ptrs
      verbosity output = (KMCUDAResult.success, output) := by
  rfl

/-- Modelled from the spec: the process-wide pseudo-random generator that
`srand(seed)` seeds and `rand()` steps (external C library state), as a
linear congruential step. -/
def lcg_next (s : ℕ) : ℕ :=
  (1103515245 * s + 12345) % 2147483648

/-- Modelled from the spec: `std::random_shuffle` (external library code) as
a Fisher–Yates shuffle driven by the seeded generator — each step draws a
pseudo-random index into the remaining elements, moves that element to the
output and recurses on the rest.  When the fuel runs out the remaining
elements are kept in place, so the result is a permutation for every fuel. -/
def shuffleGo : ℕ → ℕ → List ℕ → List ℕ
  | 0, _, l => l
  | _, _, [] => []
  | fuel + 1, s, x :: xs =>
      let y := (x :: xs).getD (s % (x :: xs).length) x
      y :: shuffleGo fuel (lcg_next s) ((x :: xs).erase y)

/-- The shuffle permutes its input. -/
theorem shuffleGo_perm (fuel : ℕ) :
    ∀ (s : ℕ) (l : List ℕ), (shuffleGo fuel s l).Perm l := by
  induction fuel with
  | zero => intro s l; simp only [shuffleGo]; exact List.Perm.refl l
  | succ m ih =>
      intro s l
      match l with
      | [] => simp only [shuffleGo]; exact List.Perm.refl []
      | x :: xs =>
          simp only [shuffleGo]
          have hy : (x :: xs).getD (s % (x :: xs).length) x ∈ x :: xs := by
            rw [List.getD_eq_getElem (x :: xs) x
              (Nat.mod_lt s (by simp))]
            exact List.getElem_mem _
          exact ((ih (lcg_next s) _).cons _).trans
            (List.perm_cons_erase hy).symm

/-- The shuffled index vector of the random initializer: `chosen = [0, n)`
(src/kmcuda.cc lines 166-170) shuffled by `std::random_shuffle`
(line 171). -/
def random_shuffle (seed : ℕ) (l : List ℕ) : List ℕ :=
  shuffleGo l.length seed l

/-- Embedding of the random-init centroid index selection (src/kmcuda.cc
lines 164-183): the first `clusters_size` entries of the shuffled
permutation of `[0, samples_size)` choose the centroids. -/
def random_init_chosen (seed samples_size clusters_size : ℕ) : List ℕ :=
  (random_shuffle seed (List.range samples_size)).take clusters_size

/-- C5: for every seed and sizes with `clusters_size ≤ samples_size`, random
initialization picks exactly `clusters_size` distinct sample indices, all in
`[0, samples_size)`, and the selection is a function of the seed alone. -/
theorem C5_random_init (seed samples_size clusters_size : ℕ)
    (h : clusters_size ≤ samples_size) :
    (random_init_chosen seed samples_size clusters_size).length = clusters_size ∧
    (random_init_chosen seed samples_size clusters_size).Nodup ∧
    (∀ x ∈ random_init_chosen seed samples_size clusters_size,
      x < samples_size) ∧
    (∀ seed2, seed2 = seed →
      random_init_chosen seed2 samples_size clusters_size =
        random_init_chosen seed samples_size clusters_size) := by
  have hperm : (random_shuffle seed (List.range samples_size)).Perm
      (List.range samples_size) := shuffleGo_perm _ _ _
  refine ⟨?_, ?_, ?_, ?_⟩
  · rw [random_init_chosen, List.length_take, hperm.length_eq,
        List.length_range]
    omega
  · exact List.Nodup.sublist (List.take_sublist _ _)
      (hperm.nodup_iff.mpr (List.nodup_range _))
  · intro x hx
    have hx2 : x ∈ random_shuffle seed (List.range samples_size) :=
      (List.take_sublist _ _).subset hx
    exact List.mem_range.mp (hperm.subset hx2)
  · intro seed2 hseed
    rw [hseed]

/-- C5 witness: the theorem instantiated at seed 1, 5 samples, 3 clusters. -/
theorem C5_random_init_witness :
    (random_init_chosen 1 5 3).length = 3 ∧
    (random_init_chosen 1 5 3).Nodup ∧
    (∀ x ∈ random_init_chosen 1 5 3, x < 5) ∧
    (∀ seed2, seed2 = 1 →
      random_init_chosen seed2 5 3 = random_init_chosen 1 5 3) :=
  C5_random_init 1 5 3 (by norm_num)

/-- The device-selection loop of `setup_devices` (src/kmcuda.cc lines
67-76): walk the mask bit by bit from device id `dev`, keep each set bit
whose `cudaSetDevice` succeeds (`selectable`), and drop — without failing —
each set bit whose selection fails.  The fuel merely bounds the recursion;
`mask` iterations always suffice because the mask at least halves each
step. -/
def scan_mask : ℕ → ℕ → ℕ → (ℕ → Bool) → List ℕ
  | 0, _, _, _ => []
  | fuel + 1, mask, dev, selectable =>
      if mask = 0 then []
      else
        let rest := scan_mask fuel (mask / 2) (dev + 1) selectable
        if mask % 2 = 1 then
          if selectable dev then dev :: rest else rest
        else rest

/-- The mask actually scanned: a zero mask expands to all installed devices,
`(1 << n_devices) - 1` (src/kmcuda.cc lines 60-66). -/
def expand_mask (device n_devices : ℕ) : ℕ :=
  if device = 0 then 2 ^ n_devices - 1 else device

/-- Embedding of `setup_devices` (src/kmcuda.cc lines 58-116).  A zero mask
expands to every installed device, an installed count of zero returning the
empty list at once.  After the scan loop the C variable `device` has been
shifted down to zero, so `p2p_dp = (device_ptrs >= 0 && !(0 & (1 <<
device_ptrs)))` holds exactly when a designated device exists; the
designated device is then pushed for the peer-access phase (lines 77-110,
which only issue CUDA queries and warnings) and popped again before the
list is returned (lines 111-114). -/
def setup_devices (device : ℕ) (device_ptrs : ℤ) (n_devices : ℕ)
    (selectable : ℕ → Bool) : List ℕ :=
  if device = 0 ∧ n_devices = 0 then []
  else
    let mask := expand_mask device n_devices
    let devs := scan_mask mask mask 0 selectable
    let p2p_dp := 0 ≤ device_ptrs
    let devs2 := if p2p_dp then devs ++ [device_ptrs.toNat] else devs
    if p2p_dp then devs2.dropLast else devs2

/-- The temporary designated-device push is always cancelled by the pop:
`setup_devices` returns exactly the scan of the expanded mask. -/
theorem setup_devices_eq_scan (device : ℕ) (dp : ℤ) (n : ℕ)
    (sel : ℕ → Bool) :
    setup_devices device dp n sel =
      scan_mask (expand_mask device n) (expand_mask device n) 0 sel := by
  unfold setup_devices
  by_cases h : device = 0 ∧ n = 0
  · rw [if_pos h]
    have h0 : expand_mask device n = 0 := by
      unfold expand_mask
      rw [if_pos h.1, h.2]
      norm_num
    rw [h0]
    rfl
  · rw [if_neg h]
    by_cases hdp : 0 ≤ dp
    · simp only [if_pos hdp, List.dropLast_concat]
    · simp only [if_neg hdp]

/-- Membership in the scan: exactly the set bits of the mask (offset by the
starting device id) whose selection succeeds. -/
theorem scan_mask_mem (fuel : ℕ) :
    ∀ (mask base : ℕ) (sel : ℕ → Bool), mask < 2 ^ fuel →
      ∀ x, x ∈ scan_mask fuel mask base sel ↔
        ∃ k, x = base + k ∧ mask.testBit k = true ∧ sel x = true := by
  induction fuel with
  | zero =>
      intro mask base sel hm x
      interval_cases mask
      simp [scan_mask, Nat.zero_testBit]
  | succ f ih =>
      intro mask base sel hm x
      by_cases h0 : mask = 0
      · subst h0
        simp [scan_mask, Nat.zero_testBit]
      · simp only [scan_mask]
        rw [if_neg h0]
        have hrec := ih (mask / 2) (base + 1) sel
          (by
            have h2 : 2 ^ (f + 1) = 2 * 2 ^ f := by ring
            omega)
        rcases Nat.mod_two_eq_zero_or_one mask with hpar | hpar
        · rw [if_neg (by omega)]
          rw [hrec x]
          constructor
          · rintro ⟨k, rfl, htb, hsel⟩
            exact ⟨k + 1, by omega, by rw [Nat.testBit_succ]; exact htb, hsel⟩
          · rintro ⟨k, rfl, htb, hsel⟩
            match k with
            | 0 =>
                rw [Nat.testBit_zero] at htb
                simp at htb
                omega
            | k + 1 =>
                rw [Nat.testBit_succ] at htb
                exact ⟨k, by omega, htb, hsel⟩
        · rw [if_pos hpar]
          have hiff : x ∈ scan_mask f (mask / 2) (base + 1) sel ↔
              ∃ k, x = base + (k + 1) ∧ mask.testBit (k + 1) = true ∧
                sel x = true := by
            rw [hrec x]
            constructor
            · rintro ⟨k, rfl, htb, hsel⟩
              exact ⟨k, by omega, by rw [Nat.testBit_succ]; exact htb, hsel⟩
            · rintro ⟨k, hk, htb, hsel⟩
              rw [Nat.testBit_succ] at htb
              exact ⟨k, by omega, htb, hsel⟩
          by_cases hsel : sel base = true
          · rw [if_pos hsel]
            simp only [List.mem_cons, hiff]
            constructor
            · rintro (rfl | ⟨k, hk, htb, hs⟩)
              · exact ⟨0, by omega, by rw [Nat.testBit_zero]; simp [hpar], hsel⟩
              · exact ⟨k + 1, hk, htb, hs⟩
            · rintro ⟨k, hk, htb, hs⟩
              match k with
              | 0 => left; omega
              | k + 1 => right; exact ⟨k, hk, htb, hs⟩
          · rw [if_neg hsel]
            rw [hiff]
            constructor
            · rintro ⟨k, hk, htb, hs⟩
              exact ⟨k + 1, hk, htb, hs⟩
            · rintro ⟨k, hk, htb, hs⟩
              match k with
              | 0 =>
                  exfalso
                  apply hsel
                  have : x = base := by omega
                  rw [this] at hs
                  exact hs
              | k + 1 => exact ⟨k, hk, htb, hs⟩

/-- Every element produced by the scan is at least the starting id. -/
theorem scan_mask_le (fuel : ℕ) :
    ∀ (mask base : ℕ) (sel : ℕ → Bool),
      ∀ x ∈ scan_mask fuel mask base sel, base ≤ x := by
  induction fuel with
  | zero => intro mask base sel x hx; simp [scan_mask] at hx
  | succ f ih =>
      intro mask base sel x hx
      simp only [scan_mask] at hx
      by_cases h0 : mask = 0
      · rw [if_pos h0] at hx; simp at hx
      · rw [if_neg h0] at hx
        split_ifs at hx with h1 h2
        · rcases List.mem_cons.mp hx with rfl | hx2
          · exact le_refl x
          · exact le_of_lt (lt_of_lt_of_le (Nat.lt_succ_self base)
              (ih _ _ _ x hx2))
        · exact le_of_lt (lt_of_lt_of_le (Nat.lt_succ_self base)
            (ih _ _ _ x hx))
        · exact le_of_lt (lt_of_lt_of_le (Nat.lt_succ_self base)
            (ih _ _ _ x hx))

/-- The scan produces a strictly ascending list. -/
theorem scan_mask_sorted (fuel : ℕ) :
    ∀ (mask base : ℕ) (sel : ℕ → Bool),
      (scan_mask fuel mask base sel).Pairwise (· < ·) := by
  induction fuel with
  | zero => intro mask base sel; simp [scan_mask]
  | succ f ih =>
      intro mask base sel
      simp only [scan_mask]
      by_cases h0 : mask = 0
      · rw [if_pos h0]; simp
      · rw [if_neg h0]
        split_ifs with h1 h2
        · exact List.Pairwise.cons
            (fun x hx => lt_of_lt_of_le (Nat.lt_succ_self base)
              (scan_mask_le f _ _ _ x hx))
            (ih _ _ _)
        · exact ih _ _ _
        · exact ih _ _ _

/-- Scanning an all-ones mask with every device selectable yields the
consecutive device ids starting at `base`. -/
theorem scan_mask_all_ones (fuel : ℕ) :
    ∀ (n base : ℕ), 2 ^ n - 1 < 2 ^ fuel →
      scan_mask fuel (2 ^ n - 1) base (fun _ => true) =
        (List.range n).map (fun k => base + k) := by
  induction fuel with
  | zero =>
      intro n base hm
      match n with
      | 0 => simp [scan_mask]
      | m + 1 =>
          exfalso
          have : 2 ≤ 2 ^ (m + 1) := Nat.one_lt_two_pow_iff.mpr (by omega)
          omega
  | succ f ih =>
      intro n base hm
      match n with
      | 0 => simp [scan_mask]
      | m + 1 =>
          have h2 : 2 ^ (m + 1) = 2 * 2 ^ m := by ring
          have h1 : 1 ≤ 2 ^ m := Nat.one_le_two_pow
          simp only [scan_mask]
          rw [if_neg (by omega)]
          rw [if_pos (by omega)]
          have hdiv : (2 ^ (m + 1) - 1) / 2 = 2 ^ m - 1 := by omega
          have hlt : 2 ^ m - 1 < 2 ^ f := by
            have h3 : 2 ^ (f + 1) = 2 * 2 ^ f := by ring
            omega
          rw [hdiv, ih m (base + 1) hlt]
          rw [if_pos trivial]
          rw [List.range_succ_eq_map, List.map_cons, List.map_map]
          congr 1
          apply List.map_congr_left
          intro k hk
          simp only [Function.comp_apply]
          omega

/-- Abstract environment for a `kmeans_cuda` run: the installed device count
and compile-time arch seen by `check_args`, which devices `cudaSetDevice`
accepts, and the combined outcome of everything after device setup (buffer
allocation and distribution, `kmeans_cuda_setup`, `kmeans_init_centroids`,
`kmeans_cuda_yy`, result collection) — external kernels and CUDA state whose
errors the control flow merely propagates. -/
structure KMEnv where
  n_devices : ℕ
  cuda_arch : ℕ
  selectable : ℕ → Bool
  after_setup : List ℕ → KMCUDAResult

/-- Control-flow embedding of `kmeans_cuda` down to the empty-device check
(src/kmcuda.cc lines 259-278): a `check_args` failure propagates (RETERR),
an empty device list yields `noSuchDevice`, and otherwise the run continues
with the selected devices. -/
def kmeans_cuda (tolerance yinyang_t : ℚ)
    (samples_size features_size clusters_size device : ℕ) (device_ptrs : ℤ)
    (fp16x2 samples_null centroids_null assignments_null : Bool)
    (env : KMEnv) : KMCUDAResult :=
  match check_args tolerance yinyang_t samples_size features_size
      clusters_size device env.n_devices env.cuda_arch fp16x2 samples_null
      centroids_null assignments_null with
  | KMCUDAResult.success =>
      let devs := setup_devices device device_ptrs env.n_devices env.selectable
      if devs = [] then KMCUDAResult.noSuchDevice
      else env.after_setup devs
  | e => e

/-- C3: a zero device mask selects every installed device — with `n ≥ 1`
installed and all selectable, `setup_devices` returns `[0, ..., n-1]` — and
whenever the filtered device list comes out empty (with arguments passing
`check_args`), `kmeans_cuda` returns `noSuchDevice`. -/
theorem C3_mask_zero_and_empty :
    (∀ n : ℕ, 1 ≤ n → ∀ dp : ℤ,
      setup_devices 0 dp n (fun _ => true) = List.range n) ∧
    (∀ (tolerance yinyang_t : ℚ)
        (samples_size features_size clusters_size device : ℕ) (dp : ℤ)
        (fp16x2 samples_null centroids_null assignments_null : Bool)
        (env : KMEnv),
      check_args tolerance yinyang_t samples_size features_size clusters_size
        device env.n_devices env.cuda_arch fp16x2 samples_null centroids_null
        assignments_null = KMCUDAResult.success →
      setup_devices device dp env.n_devices env.selectable = [] →
      kmeans_cuda tolerance yinyang_t samples_size features_size clusters_size
        device dp fp16x2 samples_null centroids_null assignments_null env =
        KMCUDAResult.noSuchDevice) := by
  constructor
  · intro n hn dp
    rw [setup_devices_eq_scan]
    have hmask : expand_mask 0 n = 2 ^ n - 1 := by
      unfold expand_mask
      rw [if_pos rfl]
    rw [hmask, scan_mask_all_ones _ n 0 (Nat.lt_two_pow _)]
    simp
  · intro tolerance yinyang_t ss fs cs device dp f16 sn cn an env hca hempty
    unfold kmeans_cuda
    rw [hca]
    simp [hempty]

/-- C3 witness: two installed selectable devices with mask 0 give `[0, 1]`;
and with one installed device, mask 2 (selecting only the absent device 1,
which `cudaSetDevice` rejects) and otherwise valid arguments, the run
returns `noSuchDevice`. -/
theorem C3_mask_zero_and_empty_witness :
    setup_devices 0 (-1) 2 (fun _ => true) = List.range 2 ∧
    kmeans_cuda 0 0 2 1 2 2 (-1) false false false false
      ⟨1, 60, fun d => d = 0, fun _ => KMCUDAResult.success⟩ =
      KMCUDAResult.noSuchDevice := by
  constructor
  · exact C3_mask_zero_and_empty.1 2 (by omega) (-1)
  · apply C3_mask_zero_and_empty.2
    · norm_num [check_args, UINT32_MAX]
    · decide

/-- C4: `setup_devices` returns exactly the device indices set in the
(expanded) mask whose selection succeeded, in ascending order; a device
whose selection fails is merely dropped; and the designated device — though
temporarily appended for the peer-access phase — is absent from the
returned list whenever its mask bit is unset. -/
theorem C4_setup_devices_exact (device : ℕ) (dp : ℤ) (n : ℕ)
    (sel : ℕ → Bool) :
    (∀ x, x ∈ setup_devices device dp n sel ↔
      ((expand_mask device n).testBit x = true ∧ sel x = true)) ∧
    (setup_devices device dp n sel).Pairwise (· < ·) ∧
    (0 ≤ dp → (expand_mask device n).testBit dp.toNat = false →
      dp.toNat ∉ setup_devices device dp n sel) := by
  have hmem : ∀ x, x ∈ setup_devices device dp n sel ↔
      ((expand_mask device n).testBit x = true ∧ sel x = true) := by
    intro x
    rw [setup_devices_eq_scan,
        scan_mask_mem _ _ _ _ (Nat.lt_two_pow _) x]
    constructor
    · rintro ⟨k, rfl, htb, hsel⟩
      exact ⟨by simpa using htb, hsel⟩
    · rintro ⟨htb, hsel⟩
      exact ⟨x, by omega, htb, hsel⟩
  refine ⟨hmem, ?_, ?_⟩
  · rw [setup_devices_eq_scan]
    exact scan_mask_sorted _ _ _ _
  · intro hdp htb hmem2
    rcases (hmem _).mp hmem2 with ⟨h1, _⟩
    rw [htb] at h1
    exact Bool.false_ne_true h1

/-- C4 witness: mask `13 = 0b1101` with device 3 unselectable yields `[0,2]`
facts; in particular the designated device 1, whose bit is unset, is not
returned even though it was temporarily pushed for the peer phase. -/
theorem C4_setup_devices_exact_witness :
    (1 : ℤ).toNat ∉ setup_devices 13 1 4 (fun d => decide (d < 3)) :=
  (C4_setup_devices_exact 13 1 4 (fun d => decide (d < 3))).2.2
    (by norm_num) (by decide)

/-- A copy or synchronization action issued while collecting results.
`bufferIdx` is the position indexed into the per-device buffer vectors
(`udevptrs`); `srcDev` is a raw CUDA device id. -/
inductive CopyAction where
  | d2hCentroids (bufferIdx : ℕ)
  | d2hAssignments (bufferIdx : ℕ)
  | peerCentroids (dstDev : ℤ) (bufferIdx : ℕ) (srcDev : ℕ)
  | peerAssignments (dstDev : ℤ) (bufferIdx : ℕ) (srcDev : ℕ)
  | syncAllDevs
  deriving DecidableEq, Repr

/-- The value `origin_devi` as computed by the FOR_EACH_DEVI loop of `kmeans_cuda`
(src/kmcuda.cc lines 281-289): the position of the designated device inside
`devs`, `-1` when the designated device is not a compute device. -/
def origin_devi (devs : List ℕ) (device_ptrs : ℤ) : ℤ :=
  (List.range devs.length).foldl
    (fun acc devi =>
      if ((devs.getD devi 0 : ℕ) : ℤ) = device_ptrs then (devi : ℤ) else acc)
    (-1)

/-- Embedding of the result-collection tail of `kmeans_cuda`
(src/kmcuda.cc lines 372-391).  When no compute device aliases the caller's
pointers (`origin_devi < 0`): with no designated device the code copies to
host from the buffer indexed by `devs.back()` — the raw device id, not a
position; with a designated device it peer-copies from buffer position
`devs.size() - 1` on device `devs.back()` and then synchronizes all
devices. -/
def collect_results (devs : List ℕ) (device_ptrs : ℤ) : List CopyAction :=
  if origin_devi devs device_ptrs < 0 then
    if device_ptrs < 0 then
      [CopyAction.d2hCentroids (devs.getLast?.getD 0),
       CopyAction.d2hAssignments (devs.getLast?.getD 0)]
    else
      [CopyAction.peerCentroids device_ptrs (devs.length - 1)
         (devs.getLast?.getD 0),
       CopyAction.peerAssignments device_ptrs (devs.length - 1)
         (devs.getLast?.getD 0),
       CopyAction.syncAllDevs]
  else []

/-- C9: evaluation at the failing input `devs = [0, 2]`, no designated
device.  The host-copy branch indexes the per-device buffer vector with the
raw device id `devs.back() = 2`, which is not the position of the last
selected device's buffer (`devs.size() - 1 = 1`) — in fact it is out of
bounds for the two-entry vector; the peer branch, by contrast, uses
position `devs.size() - 1` as the claim describes. -/
theorem C9_collect_results_bug_eval :
    collect_results [0, 2] (-1) =
      [CopyAction.d2hCentroids 2, CopyAction.d2hAssignments 2] ∧
    [0, 2].length - 1 = 1 ∧ (2 : ℕ) ≠ 1 ∧
    collect_results [0, 2] 1 =
      [CopyAction.peerCentroids 1 1 2, CopyAction.peerAssignments 1 1 2,
       CopyAction.syncAllDevs] := by
  refine ⟨by decide, by decide, by decide, by decide⟩

/-- The fold computing `origin_devi` keeps the accumulator equal to `-1` or
to a valid position whose device id equals the designated device. -/
theorem origin_fold_spec (devs : List ℕ) (dp : ℤ) :
    ∀ (l : List ℕ) (acc : ℤ),
      (∀ x ∈ l, x < devs.length) →
      (acc = -1 ∨ (0 ≤ acc ∧ acc.toNat < devs.length ∧
        ((devs.getD acc.toNat 0 : ℕ) : ℤ) = dp)) →
      (l.foldl (fun acc2 devi =>
          if ((devs.getD devi 0 : ℕ) : ℤ) = dp then (devi : ℤ) else acc2)
        acc) = -1 ∨
      (0 ≤ (l.foldl (fun acc2 devi =>
          if ((devs.getD devi 0 : ℕ) : ℤ) = dp then (devi : ℤ) else acc2)
        acc) ∧
       (l.foldl (fun acc2 devi =>
          if ((devs.getD devi 0 : ℕ) : ℤ) = dp then (devi : ℤ) else acc2)
        acc).toNat < devs.length ∧
       ((devs.getD (l.foldl (fun acc2 devi =>
          if ((devs.getD devi 0 : ℕ) : ℤ) = dp then (devi : ℤ) else acc2)
        acc).toNat 0 : ℕ) : ℤ) = dp) := by
  intro l
  induction l with
  | nil => intro acc hmem hacc; exact hacc
  | cons x xs ih =>
      intro acc hmem hacc
      rw [List.foldl_cons]
      apply ih
      · intro y hy
        exact hmem y (List.mem_cons_of_mem x hy)
      · by_cases hd : ((devs.getD x 0 : ℕ) : ℤ) = dp
        · rw [if_pos hd]
          right
          have hlt : x < devs.length := hmem x (List.mem_cons_self x xs)
          exact ⟨by omega, by simpa using hlt, by simpa using hd⟩
        · rw [if_neg hd]
          exact hacc

/-- The value `origin_devi` is either `-1` or a valid position whose device id equals
the designated device. -/
theorem origin_devi_spec (devs : List ℕ) (dp : ℤ) :
    origin_devi devs dp = -1 ∨
    (0 ≤ origin_devi devs dp ∧ (origin_devi devs dp).toNat < devs.length ∧
      ((devs.getD (origin_devi devs dp).toNat 0 : ℕ) : ℤ) = dp) := by
  unfold origin_devi
  exact origin_fold_spec devs dp (List.range devs.length) (-1)
    (fun x hx => List.mem_range.mp hx) (Or.inl rfl)

/-- Modelled from the spec: the copy macros of `private.h` used by import
mode (src/kmcuda.cc lines 143-163) — `CUMEMCPY_H2D_ASYNC` writes the host
array into every device's buffer, and the peer path issues
`cudaMemcpyPeerAsync` of the caller's array into every device buffer except
the one at `origin_devi` (which already aliases the caller's buffer).
Buffers hold exactly the `clusters_size * features_size` centroid floats. -/
def import_centroids (devs : List ℕ) (device_ptrs : ℤ) (host : List ℚ)
    (bufs : List (List ℚ)) : List (List ℚ) :=
  if device_ptrs < 0 then bufs.map (fun _ => host)
  else
    (List.range bufs.length).map (fun (devi : ℕ) =>
      if (devi : ℤ) = origin_devi devs device_ptrs then bufs.getD devi []
      else host)

/-- C8: after import-mode initialization, every device's centroid buffer
holds exactly the caller-supplied centroid array — copied host-to-device
everywhere when no device is designated, and peer-copied from the designated
device otherwise, the designated device's own entry being the caller's
buffer itself (hypothesis `horigin`, established by the aliasing in
`kmeans_cuda`). -/
theorem C8_import_centroids (devs : List ℕ) (device_ptrs : ℤ) (host : List ℚ)
    (bufs : List (List ℚ)) (hlen : bufs.length = devs.length)
    (horigin : ∀ i, i < devs.length →
      ((devs.getD i 0 : ℕ) : ℤ) = device_ptrs → bufs.getD i [] = host) :
    (import_centroids devs device_ptrs host bufs).length = bufs.length ∧
    ∀ i, i < bufs.length →
      (import_centroids devs device_ptrs host bufs).getD i [] = host := by
  unfold import_centroids
  by_cases hdp : device_ptrs < 0
  · rw [if_pos hdp]
    refine ⟨by simp, ?_⟩
    intro i hi
    rw [List.getD_eq_getElem?_getD, List.getElem?_map,
        List.getElem?_eq_getElem hi]
    rfl
  · rw [if_neg hdp]
    refine ⟨by simp, ?_⟩
    intro i hi
    rw [List.getD_eq_getElem?_getD, List.getElem?_map,
        List.getElem?_range (by simpa using hi)]
    rw [Option.map_some', Option.getD_some]
    by_cases hio : (i : ℤ) = origin_devi devs device_ptrs
    · rw [if_pos hio]
      rcases origin_devi_spec devs device_ptrs with h1 | ⟨h2, h3, h4⟩
      · rw [h1] at hio
        omega
      · have hi2 : (origin_devi devs device_ptrs).toNat = i := by omega
        rw [hi2] at h4 h3
        exact horigin i (by omega) h4
    · rw [if_neg hio]

/-- C8 witness: two devices `[0, 1]`, designated device 1 whose buffer
aliases the caller's array `[1, 2]`; after import both buffers hold
`[1, 2]`. -/
theorem C8_import_centroids_witness :
    (import_centroids [0, 1] 1 [1, 2] [[5, 5], [1, 2]]).length = 2 ∧
    ∀ i, i < 2 → (import_centroids [0, 1] 1 [1, 2] [[5, 5], [1, 2]]).getD i [] =
      [1, 2] :=
  C8_import_centroids [0, 1] 1 [1, 2] [[5, 5], [1, 2]] rfl
    (by
      intro i hi hdev
      have hi2 : i < 2 := by simpa using hi
      interval_cases i
      · simp at hdev
      · rfl)

/-- A log line emitted by the k-means++ loop for an internal-consistency
violation. -/
inductive PPLog where
  | nanDistSum (step : ℕ)
  | badIndex (step : ℕ) (j : ℕ)
  deriving DecidableEq, Repr

/-- Result of one `kmeans_cuda_plus_plus` kernel call: the host distance
vector and the (possibly NaN) distance sum. -/
structure PPStep where
  dists : List ℚ
  dist_sum : CFloat

/-- The k-means++ step loop of `kmeans_init_centroids` (src/kmcuda.cc lines
205-252), one iteration per remaining centroid: a kernel failure propagates
immediately through RETERR; a NaN `dist_sum` (lines 216-219) and an
out-of-range sampled index (lines 246-249) are appended to the log but the
loop continues; when all iterations ran the loop falls through to
`return kmcudaSuccess` (line 256). -/
def pp_go (samples_size : ℕ) (kernel : ℕ → Except KMCUDAResult PPStep)
    (choice : ℕ → ℚ) : ℕ → ℕ → List PPLog → KMCUDAResult × List PPLog
  | 0, _, log => (KMCUDAResult.success, log)
  | rem + 1, i, log =>
      match kernel i with
      | Except.error e => (e, log)
      | Except.ok r =>
          let log1 := if cfIsNaN r.dist_sum then log ++ [PPLog.nanDistSum i]
            else log
          let j := hybrid_search r.dists samples_size (choice i) r.dist_sum
          let log2 := if j = 0 ∨ samples_size < j then
            log1 ++ [PPLog.badIndex i j] else log1
          pp_go samples_size kernel choice rem (i + 1) log2

/-- The whole k-means++ loop: steps `i = 1 .. clusters_size - 1`. -/
def plus_plus_loop (samples_size clusters_size : ℕ)
    (kernel : ℕ → Except KMCUDAResult PPStep) (choice : ℕ → ℚ) :
    KMCUDAResult × List PPLog :=
  pp_go samples_size kernel choice (clusters_size - 1) 1 []

/-- Whatever is in the log stays in the log. -/
theorem pp_go_mem_mono (n : ℕ) (kernel : ℕ → Except KMCUDAResult PPStep)
    (choice : ℕ → ℚ) :
    ∀ (rem i : ℕ) (log : List PPLog) (x : PPLog), x ∈ log →
      x ∈ (pp_go n kernel choice rem i log).2 := by
  intro rem
  induction rem with
  | zero =>
      intro i log x hx
      simp only [pp_go]
      exact hx
  | succ m ih =>
      intro i log x hx
      simp only [pp_go]
      cases hk : kernel i with
      | error e => exact hx
      | ok r =>
          apply ih
          split_ifs <;> simp [hx]

/-- If every kernel call in the window succeeds, the loop returns
`success`. -/
theorem pp_go_success (n : ℕ) (kernel : ℕ → Except KMCUDAResult PPStep)
    (choice : ℕ → ℚ) :
    ∀ (rem i : ℕ) (log : List PPLog),
      (∀ t, i ≤ t → t < i + rem → (kernel t).isOk = true) →
      (pp_go n kernel choice rem i log).1 = KMCUDAResult.success := by
  intro rem
  induction rem with
  | zero =>
      intro i log hok
      simp only [pp_go]
  | succ m ih =>
      intro i log hok
      simp only [pp_go]
      cases hk : kernel i with
      | error e =>
          exfalso
          have h := hok i (le_refl i) (by omega)
          rw [hk] at h
          simp [Except.isOk, Except.toBool] at h
      | ok r =>
          apply ih
          intro t ht1 ht2
          exact hok t (by omega) (by omega)

/-- A NaN distance sum at an in-window step whose preceding kernel calls all
succeed ends up in the log. -/
theorem pp_go_logs_nan (n : ℕ) (kernel : ℕ → Except KMCUDAResult PPStep)
    (choice : ℕ → ℚ) :
    ∀ (rem i : ℕ) (log : List PPLog) (t : ℕ) (r : PPStep),
      i ≤ t → t < i + rem → kernel t = Except.ok r →
      cfIsNaN r.dist_sum = true →
      (∀ u, i ≤ u → u < t → (kernel u).isOk = true) →
      PPLog.nanDistSum t ∈ (pp_go n kernel choice rem i log).2 := by
  intro rem
  induction rem with
  | zero =>
      intro i log t r h1 h2 hk hnan hpre
      omega
  | succ m ih =>
      intro i log t r h1 h2 hk hnan hpre
      simp only [pp_go]
      by_cases hti : t = i
      · subst hti
        rw [hk]
        apply pp_go_mem_mono
        rw [if_pos hnan]
        split_ifs <;> simp
      · cases hki : kernel i with
        | error e =>
            exfalso
            have h := hpre i (le_refl i) (by omega)
            rw [hki] at h
            simp [Except.isOk, Except.toBool] at h
        | ok r0 =>
            apply ih _ _ t r (by omega) (by omega) hk hnan
            intro u hu1 hu2
            exact hpre u (by omega) hu2

/-- An out-of-range sampled index at an in-window step whose preceding
kernel calls all succeed ends up in the log. -/
theorem pp_go_logs_bad (n : ℕ) (kernel : ℕ → Except KMCUDAResult PPStep)
    (choice : ℕ → ℚ) :
    ∀ (rem i : ℕ) (log : List PPLog) (t : ℕ) (r : PPStep),
      i ≤ t → t < i + rem → kernel t = Except.ok r →
      (hybrid_search r.dists n (choice t) r.dist_sum = 0 ∨
        n < hybrid_search r.dists n (choice t) r.dist_sum) →
      (∀ u, i ≤ u → u < t → (kernel u).isOk = true) →
      PPLog.badIndex t (hybrid_search r.dists n (choice t) r.dist_sum) ∈
        (pp_go n kernel choice rem i log).2 := by
  intro rem
  induction rem with
  | zero =>
      intro i log t r h1 h2 hk hbad hpre
      omega
  | succ m ih =>
      intro i log t r h1 h2 hk hbad hpre
      simp only [pp_go]
      by_cases hti : t = i
      · subst hti
        rw [hk]
        apply pp_go_mem_mono
        rw [if_pos hbad]
        simp
      · cases hki : kernel i with
        | error e =>
            exfalso
            have h := hpre i (le_refl i) (by omega)
            rw [hki] at h
            simp [Except.isOk, Except.toBool] at h
        | ok r0 =>
            apply ih _ _ t r (by omega) (by omega) hk hbad
            intro u hu1 hu2
            exact hpre u (by omega) hu2

/-- C6: when every `kmeans_cuda_plus_plus` call succeeds, the k-means++ loop
returns `success` even if some step produced a NaN `dist_sum` or an
out-of-range sampled index; those violations are appended to the log (the
`INFO` lines) but never converted into an error code. -/
theorem C6_plus_plus_violations_only_logged (samples_size clusters_size : ℕ)
    (kernel : ℕ → Except KMCUDAResult PPStep) (choice : ℕ → ℚ)
    (hok : ∀ i, 1 ≤ i → i < clusters_size → (kernel i).isOk = true) :
    (plus_plus_loop samples_size clusters_size kernel choice).1 =
      KMCUDAResult.success ∧
    (∀ t r, 1 ≤ t → t < clusters_size → kernel t = Except.ok r →
      cfIsNaN r.dist_sum = true →
      PPLog.nanDistSum t ∈
        (plus_plus_loop samples_size clusters_size kernel choice).2) ∧
    (∀ t r, 1 ≤ t → t < clusters_size → kernel t = Except.ok r →
      (hybrid_search r.dists samples_size (choice t) r.dist_sum = 0 ∨
        samples_size < hybrid_search r.dists samples_size (choice t)
          r.dist_sum) →
      PPLog.badIndex t
          (hybrid_search r.dists samples_size (choice t) r.dist_sum) ∈
        (plus_plus_loop samples_size clusters_size kernel choice).2) := by
  refine ⟨?_, ?_, ?_⟩
  · apply pp_go_success
    intro t ht1 ht2
    exact hok t ht1 (by omega)
  · intro t r ht1 ht2 hk hnan
    apply pp_go_logs_nan _ _ _ _ _ _ t r ht1 (by omega) hk hnan
    intro u hu1 hu2
    exact hok u hu1 (by omega)
  · intro t r ht1 ht2 hk hbad
    apply pp_go_logs_bad _ _ _ _ _ _ t r ht1 (by omega) hk hbad
    intro u hu1 hu2
    exact hok u hu1 (by omega)

/-- The search on the concrete C6 witness input: a NaN distance sum makes
both comparisons false, so the linear branch exits immediately at `j = 0`,
which is out of range. -/
theorem hybrid_search_nan_eval :
    hybrid_search [1, 1, 1] 3 0 none = 0 := by
  unfold hybrid_search
  rw [if_pos]
  · simp only [scanFwd, cfMul, qltCF]
    norm_num
  · norm_num

/-- C6 witness: three samples, two clusters (one k-means++ step), a kernel
that reports a NaN distance sum.  The loop still returns `success`, and both
the NaN and the resulting out-of-range index 0 are logged. -/
theorem C6_plus_plus_violations_only_logged_witness :
    (plus_plus_loop 3 2 (fun _ => Except.ok ⟨[1, 1, 1], none⟩)
      (fun _ => 0)).1 = KMCUDAResult.success ∧
    PPLog.nanDistSum 1 ∈
      (plus_plus_loop 3 2 (fun _ => Except.ok ⟨[1, 1, 1], none⟩)
        (fun _ => 0)).2 ∧
    PPLog.badIndex 1 0 ∈
      (plus_plus_loop 3 2 (fun _ => Except.ok ⟨[1, 1, 1], none⟩)
        (fun _ => 0)).2 := by
  have h := C6_plus_plus_violations_only_logged 3 2
    (fun _ => Except.ok ⟨[1, 1, 1], none⟩) (fun _ => 0)
    (fun i h1 h2 => rfl)
  refine ⟨h.1, h.2.1 1 ⟨[1, 1, 1], none⟩ (by omega) (by omega) rfl rfl, ?_⟩
  have hb := h.2.2 1 ⟨[1, 1, 1], none⟩ (by omega) (by omega) rfl
    (Or.inl hybrid_search_nan_eval)
  rw [hybrid_search_nan_eval] at hb
  exact hb

end Kmcuda
